import Mathlib

/-!
Shallow embedding of the Anywhere Network Extension C sources
(`CTLSKeyDerivation.c`, `CPacket.c`, `CGeoIP.c`) and proofs about them.

Byte buffers are modelled as `List Nat` (each element a byte value);
out-of-range reads that the C code guards against are modelled with
`List.getD` (default 0).  The cryptographic primitives (SHA-256/384 and
HMAC) are abstract function parameters; the code under verification only
composes them.
-/

namespace Anywhere

/-- Read a big-endian 16-bit value at `off` (as the C code does with
`(uint16_t)d[off] << 8 | d[off+1]`). -/
def readU16 (d : List Nat) (off : Nat) : Nat :=
  d.getD off 0 * 256 + d.getD (off + 1) 0

/-- Read a big-endian 32-bit value at `off`. -/
def readU32 (d : List Nat) (off : Nat) : Nat :=
  d.getD off 0 * 16777216 + d.getD (off + 1) 0 * 65536 +
    d.getD (off + 2) 0 * 256 + d.getD (off + 3) 0

-- MARK: CTLSKeyDerivation.c

/-- The two HMAC algorithms the C file selects between
(`kCCHmacAlgSHA256` / `kCCHmacAlgSHA384`). -/
inductive CCHmacAlgorithm where
  | sha256
  | sha384
deriving DecidableEq, Repr

/-- Cipher-suite constant from `CTLSKeyDerivation.h`. -/
def TLS_AES_128_GCM_SHA256 : Nat := 0x1301

/-- Cipher-suite constant from `CTLSKeyDerivation.h`. -/
def TLS_AES_256_GCM_SHA384 : Nat := 0x1302

/-- Embeds `get_suite_params`: resolve a cipher suite to
(HMAC algorithm, hash length, key length). -/
def get_suite_params (cs : Nat) : CCHmacAlgorithm × Nat × Nat :=
  if cs = TLS_AES_256_GCM_SHA384 then (.sha384, 48, 32) else (.sha256, 32, 16)

section KeyDerivation

-- Abstract model of `CCHmac` (algorithm, key, message to digest) and of
-- `CC_SHA256` / `CC_SHA384`.
variable (hmacA : CCHmacAlgorithm → List Nat → List Nat → List Nat)
variable (sha2 sha3 : List Nat → List Nat)

/-- Embeds `sha_hash`: SHA-256 or SHA-384 depending on the cipher suite. -/
def sha_hash (cs : Nat) (data : List Nat) : List Nat :=
  if cs = TLS_AES_256_GCM_SHA384 then sha3 data else sha2 data

/-- Embeds `hkdf_extract`: `PRK = HMAC(salt, IKM)`, with a zero salt of
`hash_len` bytes when the salt is empty. -/
def hkdf_extract (alg : CCHmacAlgorithm) (hash_len : Nat)
    (salt ikm : List Nat) : List Nat :=
  if salt.length = 0 then hmacA alg (List.replicate hash_len 0) ikm
  else hmacA alg salt ikm

/-- Embeds the `while (offset < length)` loop of `hkdf_expand`.
`remaining = length - offset`; `t` holds the previous HMAC output
(empty before the first round, matching `t_len == 0`); `counter` is the
uint8 block counter (reduced mod 256 where the byte is appended).
`fuel` bounds the iteration count; each iteration consumes at least one
output byte whenever `hash_len > 0`, so `fuel = length` is always enough. -/
def hkdf_expand_go (alg : CCHmacAlgorithm) (hash_len : Nat)
    (prk info : List Nat) : Nat → Nat → List Nat → Nat → List Nat
  | 0, _, _, _ => []
  | fuel + 1, remaining, t, counter =>
    if remaining = 0 then []
    else
      let tNew := hmacA alg prk (t ++ info ++ [counter % 256])
      let toCopy := min hash_len remaining
      tNew.take toCopy ++
        hkdf_expand_go alg hash_len prk info fuel (remaining - toCopy) tNew (counter + 1)

/-- Embeds `hkdf_expand`: `output = T(1) || T(2) || ...` truncated to `outLen`. -/
def hkdf_expand (alg : CCHmacAlgorithm) (hash_len : Nat)
    (prk info : List Nat) (outLen : Nat) : List Nat :=
  hkdf_expand_go hmacA alg hash_len prk info outLen outLen [] 1

/-- The bytes of the string "tls13 ". -/
def tls13Bytes : List Nat := [0x74, 0x6c, 0x73, 0x31, 0x33, 0x20]

/-- Embeds `hkdf_expand_label` (RFC 8446 §7.1):
`info = Length(2, BE) || len("tls13 " + label)(1) || "tls13 " + label ||
len(context)(1) || context`. -/
def hkdf_expand_label (alg : CCHmacAlgorithm) (hash_len : Nat)
    (secret label context : List Nat) (outLen : Nat) : List Nat :=
  let info := [outLen / 256 % 256, outLen % 256, (6 + label.length) % 256] ++
    tls13Bytes ++ label ++ [context.length % 256] ++ context
  hkdf_expand hmacA alg hash_len secret info outLen

/-- Embeds `derive_secret`:
`HKDF-Expand-Label(secret, label, Hash(messages), hash_len)`; the C code
reads `hash_len` bytes of the digest buffer, modelled by `take hash_len`. -/
def derive_secret (cs : Nat) (alg : CCHmacAlgorithm) (hash_len : Nat)
    (secret label messages : List Nat) : List Nat :=
  hkdf_expand_label hmacA alg hash_len secret label
    ((sha_hash sha2 sha3 cs messages).take hash_len) hash_len

/-- Label bytes of "derived". -/
def labelDerived : List Nat := [100, 101, 114, 105, 118, 101, 100]

/-- Label bytes of "c hs traffic". -/
def labelCHsTraffic : List Nat := [99, 32, 104, 115, 32, 116, 114, 97, 102, 102, 105, 99]

/-- Label bytes of "s hs traffic". -/
def labelSHsTraffic : List Nat := [115, 32, 104, 115, 32, 116, 114, 97, 102, 102, 105, 99]

/-- Label bytes of "key". -/
def labelKey : List Nat := [107, 101, 121]

/-- Label bytes of "iv". -/
def labelIv : List Nat := [105, 118]

/-- The six output buffers of `tls13_derive_handshake_keys`. -/
structure HandshakeKeys where
  hsSecret : List Nat
  clientKey : List Nat
  clientIV : List Nat
  serverKey : List Nat
  serverIV : List Nat
  clientTrafficSecret : List Nat
deriving DecidableEq, Repr

/-- Embeds `tls13_derive_handshake_keys`, following the C statement order. -/
def tls13_derive_handshake_keys (cs : Nat)
    (sharedSecret transcript : List Nat) : HandshakeKeys :=
  let p := get_suite_params cs
  let alg := p.1
  let hash_len := p.2.1
  let key_len := p.2.2
  let earlySecret := hkdf_extract hmacA alg hash_len [] (List.replicate hash_len 0)
  let derivedEarly := derive_secret hmacA sha2 sha3 cs alg hash_len earlySecret labelDerived []
  let hsSecret := hkdf_extract hmacA alg hash_len derivedEarly sharedSecret
  let cHS := derive_secret hmacA sha2 sha3 cs alg hash_len hsSecret labelCHsTraffic transcript
  let cKey := hkdf_expand_label hmacA alg hash_len cHS labelKey [] key_len
  let cIV := hkdf_expand_label hmacA alg hash_len cHS labelIv [] 12
  let sHS := derive_secret hmacA sha2 sha3 cs alg hash_len hsSecret labelSHsTraffic transcript
  let sKey := hkdf_expand_label hmacA alg hash_len sHS labelKey [] key_len
  let sIV := hkdf_expand_label hmacA alg hash_len sHS labelIv [] 12
  ⟨hsSecret, cKey, cIV, sKey, sIV, cHS⟩

/-- Spec-side HKDF block sequence: `T(0)` empty,
`T(i) = HMAC(prk, T(i-1) || info || i)` with the counter as one byte.
`f` is the HMAC keyed with the PRK. -/
def specT (f : List Nat → List Nat) (info : List Nat) : Nat → List Nat
  | 0 => []
  | i + 1 => f (specT f info i ++ info ++ [(i + 1) % 256])

/-- Concatenation `T(1) || ... || T(k)` of the spec-side blocks. -/
def specBlocks (f : List Nat → List Nat) (info : List Nat) : Nat → List Nat
  | 0 => []
  | k + 1 => specBlocks f info k ++ specT f info (k + 1)

/-- Helper: concatenation `T(c) || T(c+1) || ... || T(c+k-1)`. -/
def blocksFrom (f : List Nat → List Nat) (info : List Nat) (c : Nat) : Nat → List Nat
  | 0 => []
  | k + 1 => specT f info c ++ blocksFrom f info (c + 1) k

/-- Spec-side HKDF-Expand, per the spec's words: the counter-based blocks
concatenated and truncated to the requested length. -/
def specExpand (f : List Nat → List Nat) (hash_len : Nat)
    (info : List Nat) (outLen : Nat) : List Nat :=
  (specBlocks f info ((outLen + hash_len - 1) / hash_len)).take outLen

/-- Spec-side HKDF-Expand-Label, info built per the spec's words:
`length(u16 BE) || len("tls13 "+label)(u8) || "tls13 "+label ||
len(context)(u8) || context`. -/
def specExpandLabel (f : List Nat → List Nat) (hash_len : Nat)
    (label context : List Nat) (outLen : Nat) : List Nat :=
  specExpand f hash_len
    ([outLen / 256 % 256, outLen % 256] ++ [(tls13Bytes ++ label).length % 256] ++
      (tls13Bytes ++ label) ++ [context.length % 256] ++ context) outLen

/-- Spec-side handshake-key pipeline exactly as claim C2 states it. -/
def specDeriveHandshakeKeys (cs : Nat)
    (sharedSecret transcript : List Nat) : HandshakeKeys :=
  let alg := (get_suite_params cs).1
  let h := (get_suite_params cs).2.1
  let kl := (get_suite_params cs).2.2
  let earlySecret := hmacA alg (List.replicate h 0) (List.replicate h 0)
  let derivedEarly :=
    specExpandLabel (hmacA alg earlySecret) h labelDerived
      (sha_hash sha2 sha3 cs []) h
  let handshakeSecret := hmacA alg derivedEarly sharedSecret
  let cHS :=
    specExpandLabel (hmacA alg handshakeSecret) h labelCHsTraffic
      (sha_hash sha2 sha3 cs transcript) h
  let sHS :=
    specExpandLabel (hmacA alg handshakeSecret) h labelSHsTraffic
      (sha_hash sha2 sha3 cs transcript) h
  ⟨handshakeSecret,
   specExpandLabel (hmacA alg cHS) h labelKey [] kl,
   specExpandLabel (hmacA alg cHS) h labelIv [] 12,
   specExpandLabel (hmacA alg sHS) h labelKey [] kl,
   specExpandLabel (hmacA alg sHS) h labelIv [] 12,
   cHS⟩

end KeyDerivation

-- MARK: CPacket.c

/-- Embeds `parse_tls_header`: returns the content type and record length
from a 5-byte TLS record header, or `none` when fewer than 5 bytes. -/
def parse_tls_header (buffer : List Nat) : Option (Nat × Nat) :=
  if buffer.length < 5 then none
  else some (buffer.getD 0 0, readU16 buffer 3)

/-- Embeds the backward `while (i >= 0 && data[i] == 0) i--;` scan of
`find_tls13_content_end`: `scan_back data i` scans indices `i-1, i-2, ...`
for the last non-zero byte. -/
def scan_back (data : List Nat) : Nat → Option Nat
  | 0 => none
  | i + 1 => if data.getD i 0 = 0 then scan_back data i else some i

/-- Embeds `find_tls13_content_end`: fast path checks the last byte when
`length >= 8`, otherwise falls back to the backward scan.  Returns the
index of the content-type byte together with its value (`-1` in C is
`none` here). -/
def find_tls13_content_end (data : List Nat) : Option (Nat × Nat) :=
  if data.length = 0 then none
  else if 8 ≤ data.length ∧ data.getD (data.length - 1) 0 ≠ 0 then
    some (data.length - 1, data.getD (data.length - 1) 0)
  else
    match scan_back data data.length with
    | none => none
    | some i => some (i, data.getD i 0)

/-- The plain backward scan on its own (the spec's reference algorithm,
with no fast path). -/
def scan_only (data : List Nat) : Option (Nat × Nat) :=
  match scan_back data data.length with
  | none => none
  | some i => some (i, data.getD i 0)

/-- Embeds `tls13_unwrap_content`: content length (index of the
content-type byte) and inner content type, or `none` for the C `-1`. -/
def tls13_unwrap_content (data : List Nat) : Option (Nat × Nat) :=
  if data.length = 0 then none
  else
    match find_tls13_content_end data with
    | none => none
    | some (contentEnd, ct) => some (contentEnd, ct)

/-- Embeds the QNAME loop of `parse_dns_query_ext`.  State: `offset` into
`data`, accumulated domain bytes `dom` (dots inserted between labels).
Returns the offset just past the QNAME terminator together with the
domain, or `none` for the C `return 0` paths.  `fuel` bounds iterations;
each iteration advances `offset` by at least one, so `fuel = data.length`
is always enough, and exhausted fuel coincides with the `offset < len`
loop exit. -/
def qname_loop (data : List Nat) (capacity : Nat) :
    Nat → Nat → List Nat → Option (Nat × List Nat)
  | 0, offset, dom => some (offset, dom)
  | fuel + 1, offset, dom =>
    if offset < data.length then
      let labelLen := data.getD offset 0
      let o := offset + 1
      if labelLen = 0 then some (o, dom)
      else if labelLen &&& 0xC0 ≠ 0 then none
      else if o + labelLen > data.length then none
      else
        let dom1 := if 0 < dom.length then dom ++ [46] else dom
        if 0 < dom.length ∧ capacity ≤ dom.length then none
        else if dom1.length + labelLen > capacity then none
        else qname_loop data capacity fuel (o + labelLen)
          (dom1 ++ (data.drop o).take labelLen)
    else some (offset, dom)

/-- Embeds `parse_dns_query_ext`.  `capIn` is the incoming
`*outDomainLen` capacity; on success returns the dot-joined domain bytes
(the C code additionally NUL-terminates them in the caller's buffer and
sets `*outDomainLen` to their count) and the QTYPE. -/
def parse_dns_query_ext (data : List Nat) (capIn : Nat) :
    Option (List Nat × Nat) :=
  if data.length < 12 ∨ capIn = 0 then none
  else
    let qdcount := readU16 data 4
    if qdcount = 0 then none
    else
      let capacity := capIn - 1
      match qname_loop data capacity data.length 12 [] with
      | none => none
      | some (offset, dom) =>
        if dom.length = 0 then none
        else if offset + 2 > data.length then none
        else some (dom, readU16 data offset)

/-- Embeds the QNAME-skipping loop of `generate_dns_response`: walks the
labels from `offset` and returns the offset just after the terminator
(one byte for a zero label or a compression-pointer byte; the code
consumes a single byte of a pointer before breaking). -/
def skip_question_name (queryData : List Nat) : Nat → Nat → Nat
  | 0, offset => offset
  | fuel + 1, offset =>
    if offset < queryData.length then
      let labelLen := queryData.getD offset 0
      let o := offset + 1
      if labelLen = 0 then o
      else if labelLen &&& 0xC0 ≠ 0 then o
      else skip_question_name queryData fuel (o + labelLen)
    else offset

/-- Embeds `generate_dns_response`.  `fakeIP = none` models a NULL
pointer.  The result is the written response buffer contents (its length
is the C return value); `none` models the C `return 0` failure. -/
def generate_dns_response (queryData : List Nat) (fakeIP : Option (List Nat))
    (qtype : Nat) (outBufSize : Nat) : Option (List Nat) :=
  if queryData.length < 12 then none
  else
    let offset := skip_question_name queryData queryData.length 12 + 4
    if offset > queryData.length then none
    else
      let questionEnd := offset
      let rdLength :=
        match fakeIP with
        | none => 0
        | some _ => if qtype = 1 then 4 else if qtype = 28 then 16 else 0
      let ansType :=
        match fakeIP with
        | none => 0
        | some _ => if qtype = 1 then 1 else if qtype = 28 then 28 else 0
      if 0 < rdLength then
        let responseLen := questionEnd + 12 + rdLength
        if outBufSize < responseLen then none
        else
          let question :=
            ((((((queryData.take questionEnd).set 2 0x85).set 3 0x80).set 6 0).set 7 1).set 8 0 |>.set 9 0 |>.set 10 0 |>.set 11 0)
          let answer :=
            [0xC0, 0x0C, ansType / 256 % 256, ansType % 256, 0x00, 0x01,
             0x00, 0x00, 0x00, 0x01, rdLength / 256 % 256, rdLength % 256] ++
            (fakeIP.getD []).take rdLength
          some (question ++ answer)
      else
        if outBufSize < questionEnd then none
        else
          some (((((((queryData.take questionEnd).set 2 0x85).set 3 0x80).set 6 0).set 7 0).set 8 0).set 9 0 |>.set 10 0 |>.set 11 0)

/-- Embeds the extension-walking loop of `parse_server_hello`: looks for a
`key_share` (0x0033) extension carrying an X25519 (0x001d) 32-byte key.
`none` covers both the in-loop `return 0` paths and falling off the loop
(the outer code then returns 0 as well).  Each iteration advances
`shOffset` by at least 4, so `fuel = extLen + 4` is always enough. -/
def sh_ext_loop (data : List Nat) (extEnd : Nat) : Nat → Nat → Option (List Nat)
  | 0, _ => none
  | fuel + 1, shOffset =>
    if shOffset + 4 ≤ extEnd then
      let extType := readU16 data shOffset
      let extDataLen := readU16 data (shOffset + 2)
      let o := shOffset + 4
      if extType = 0x0033 then
        if o + 4 > data.length then none
        else
          let group := readU16 data o
          let keyLen := readU16 data (o + 2)
          let o2 := o + 4
          if group = 0x001d ∧ keyLen = 32 then
            if o2 + 32 > data.length then none
            else some ((data.drop o2).take 32)
          else sh_ext_loop data extEnd fuel (o2 + extDataLen)
      else sh_ext_loop data extEnd fuel (o + extDataLen)
    else none

/-- Embeds the record-walking loop of `parse_server_hello`.  Breaking out
of the loop and every `return 0` both yield `none`; success returns the
32-byte key share and the cipher suite.  Each iteration advances `offset`
by at least 5, so `fuel = data.length` is always enough, and exhausted
fuel coincides with the loop exit (which returns 0). -/
def parse_server_hello_go (data : List Nat) : Nat → Nat → Option (List Nat × Nat)
  | 0, _ => none
  | fuel + 1, offset =>
    if offset + 5 < data.length then
      if data.getD offset 0 ≠ 0x16 then none
      else
        let recordLen := readU16 data (offset + 3)
        let o := offset + 5
        if o + recordLen > data.length then none
        else if data.getD o 0 ≠ 0x02 then
          parse_server_hello_go data fuel (o + recordLen)
        else
          let shOffset := o + 1 + 3 + 2 + 32
          if data.length ≤ shOffset then none
          else
            let sessionIdLen := data.getD shOffset 0
            let s1 := shOffset + 1 + sessionIdLen
            if s1 + 2 > data.length then none
            else
              let cs := readU16 data s1
              let s2 := s1 + 3
              if s2 + 2 > data.length then none
              else
                let extLen := readU16 data s2
                let s3 := s2 + 2
                let extEnd := s3 + extLen
                if extEnd > data.length then none
                else
                  match sh_ext_loop data extEnd (extLen + 4) s3 with
                  | some key => some (key, cs)
                  | none => none
    else none

/-- Embeds `parse_server_hello`. -/
def parse_server_hello (data : List Nat) : Option (List Nat × Nat) :=
  parse_server_hello_go data data.length 0

-- MARK: CGeoIP.c

/-- Embeds the `inet_pton(AF_INET, ...)` dotted-quad parser (BSD
`inet_pton4`): exactly four decimal octets separated by dots, each at most
255, leading zeros rejected.  State: `sawDigit`, started-`octets` count,
current octet value `cur`, previously completed octets `acc`. -/
def inet_pton4_go : List Char → Bool → Nat → Nat → List Nat → Option (List Nat)
  | [], _, octets, cur, acc =>
    if octets < 4 then none else some (acc ++ [cur])
  | ch :: rest, sawDigit, octets, cur, acc =>
    if '0' ≤ ch ∧ ch ≤ '9' then
      let d := ch.toNat - 48
      let newv := cur * 10 + d
      if sawDigit ∧ cur = 0 then none
      else if 255 < newv then none
      else if sawDigit then inet_pton4_go rest true octets newv acc
      else if 4 < octets + 1 then none
      else inet_pton4_go rest true (octets + 1) newv acc
    else if ch = '.' ∧ sawDigit then
      if octets = 4 then none
      else inet_pton4_go rest false octets 0 (acc ++ [cur])
    else none

/-- Parse an IPv4 dotted-quad string to the host-order 32-bit value
(`ntohl` of the `inet_pton` result). -/
def inet_pton4 (s : List Char) : Option Nat :=
  match inet_pton4_go s false 0 0 [] with
  | none => none
  | some bytes =>
    some (bytes.getD 0 0 * 16777216 + bytes.getD 1 0 * 65536 +
      bytes.getD 2 0 * 256 + bytes.getD 3 0)

/-- Start of range of GeoIP entry `i` (big-endian u32 at `8 + i*10`). -/
def entryStart (db : List Nat) (i : Nat) : Nat := readU32 db (8 + i * 10)

/-- End of range of GeoIP entry `i`. -/
def entryEnd (db : List Nat) (i : Nat) : Nat := readU32 db (8 + i * 10 + 4)

/-- Country code of GeoIP entry `i` (big-endian u16 at `8 + i*10 + 8`). -/
def entryCode (db : List Nat) (i : Nat) : Nat := readU16 db (8 + i * 10 + 8)

/-- Embeds the binary-search loop of `geoip_lookup`: find the largest
index with `startIP <= ip`.  `lo`, `hi`, `best` are C `int`s.  The
interval shrinks every iteration, so `fuel = count + 1` is always enough,
and exhausted fuel coincides with the `lo <= hi` loop exit. -/
def geo_bsearch (db : List Nat) (ip : Nat) : Nat → Int → Int → Int → Int
  | 0, _, _, best => best
  | fuel + 1, lo, hi, best =>
    if lo ≤ hi then
      let mid := lo + (hi - lo) / 2
      if entryStart db mid.toNat ≤ ip then geo_bsearch db ip fuel (mid + 1) hi mid
      else geo_bsearch db ip fuel lo (mid - 1) best
    else best

/-- Embeds `geoip_lookup` (the NULL-pointer checks have no list
counterpart; a list is never NULL). -/
def geoip_lookup (db : List Nat) (ipStr : List Char) : Nat :=
  if db.length < 8 then 0
  else if ¬(db.getD 0 0 = 71 ∧ db.getD 1 0 = 69 ∧ db.getD 2 0 = 79 ∧ db.getD 3 0 = 49) then 0
  else
    let count := readU32 db 4
    if db.length < 8 + count * 10 then 0
    else
      match inet_pton4 ipStr with
      | none => 0
      | some ip =>
        let best := geo_bsearch db ip (count + 1) 0 ((count : Int) - 1) (-1)
        if best < 0 then 0
        else if entryEnd db best.toNat < ip then 0
        else entryCode db best.toNat

-- MARK: Example data used in closed theorems

/-- A minimal well-formed ServerHello TLS record: cipher suite 0x1301 and
an X25519 key_share of 32 bytes of value 7. -/
def serverHelloRecordEx : List Nat :=
  [0x16, 0x03, 0x03, 0x00, 0x54] ++
  [0x02, 0x00, 0x00, 0x50] ++ [0x03, 0x03] ++ List.replicate 32 0 ++
  [0x00] ++ [0x13, 0x01] ++ [0x00] ++ [0x00, 0x28] ++
  [0x00, 0x33, 0x00, 0x24] ++ [0x00, 0x1d] ++ [0x00, 0x20] ++ List.replicate 32 7

/-- A ChangeCipherSpec record (content type 0x14, one byte of payload). -/
def ccsRecordEx : List Nat := [0x14, 0x03, 0x03, 0x00, 0x01, 0x00]

/-- A DNS query whose QNAME is a lone two-byte compression pointer
(0xC0 0x0C) followed by QTYPE = A and QCLASS = IN; 18 bytes total. -/
def dnsPointerQueryEx : List Nat :=
  [0, 1, 1, 0, 0, 1, 0, 0, 0, 0, 0, 0] ++ [0xC0, 0x0C, 0x00, 0x01, 0x00, 0x01]

/-- A DNS query for the single-label domain "a", QTYPE = A. -/
def dnsQueryEx : List Nat :=
  [0, 0, 0, 0, 0, 1, 0, 0, 0, 0, 0, 0] ++ [1, 97, 0] ++ [0, 1] ++ [0, 1]

/-- The spec's three-entry GeoIP table:
`[(1,10,"AA"), (11,20,"BB"), (100,200,"CC")]`. -/
def geoDbEx : List Nat :=
  [71, 69, 79, 49, 0, 0, 0, 3] ++
  [0, 0, 0, 1, 0, 0, 0, 10, 0x41, 0x41] ++
  [0, 0, 0, 11, 0, 0, 0, 20, 0x42, 0x42] ++
  [0, 0, 0, 100, 0, 0, 0, 200, 0x43, 0x43]

/-- The dotted-quad string "0.0.0.11". -/
def geoIpStrEx : List Char := ['0', '.', '0', '.', '0', '.', '1', '1']

/-- A stand-in HMAC with a fixed 4-byte digest, used to instantiate the
abstract primitive in witnesses. -/
def dummyHmac : CCHmacAlgorithm → List Nat → List Nat → List Nat :=
  fun _ k m => List.replicate 4 ((k.length + m.length) % 256)

/-- A stand-in HMAC whose digest length follows the algorithm (32 for
SHA-256, 48 for SHA-384), used to instantiate witnesses. -/
def dummyHmacAlg : CCHmacAlgorithm → List Nat → List Nat → List Nat :=
  fun a k m =>
    List.replicate (match a with | .sha256 => 32 | .sha384 => 48)
      ((k.length + m.length) % 256)

/-- A stand-in SHA-256 with a fixed 32-byte digest. -/
def dummySha2 : List Nat → List Nat := fun m => List.replicate 32 (m.length % 256)

/-- A stand-in SHA-384 with a fixed 48-byte digest. -/
def dummySha3 : List Nat → List Nat := fun m => List.replicate 48 ((m.length + 1) % 256)

-- MARK: Bounds instrumentation
--
-- Each `safe_*` function mirrors the control flow of its embedding and
-- emits `decide (index < length)` for every buffer index the C code
-- dereferences on that path (reads of the input buffers and writes into
-- the caller-supplied output buffers).  The safety claims state that
-- these functions are constantly `true`: no reachable access is out of
-- bounds.

/-- Access checks of `parse_tls_header`: reads bytes 0, 3, 4 when at
least 5 bytes are present. -/
def safe_parse_tls_header (buffer : List Nat) : Bool :=
  if buffer.length < 5 then true
  else decide (0 < buffer.length) && decide (3 < buffer.length) && decide (4 < buffer.length)

/-- Access checks of the extension loop of `parse_server_hello`. -/
def safe_sh_ext_loop (data : List Nat) (extEnd : Nat) : Nat → Nat → Bool
  | 0, _ => true
  | fuel + 1, shOffset =>
    if shOffset + 4 ≤ extEnd then
      decide (shOffset + 3 < data.length) &&
      (let extType := readU16 data shOffset
       let extDataLen := readU16 data (shOffset + 2)
       let o := shOffset + 4
       if extType = 0x0033 then
         if o + 4 > data.length then true
         else decide (o + 3 < data.length) &&
           (let group := readU16 data o
            let keyLen := readU16 data (o + 2)
            let o2 := o + 4
            if group = 0x001d ∧ keyLen = 32 then
              if o2 + 32 > data.length then true else decide (o2 + 32 ≤ data.length)
            else safe_sh_ext_loop data extEnd fuel (o2 + extDataLen))
       else safe_sh_ext_loop data extEnd fuel (o + extDataLen))
    else true

/-- Access checks of the record loop of `parse_server_hello`. -/
def safe_parse_server_hello_go (data : List Nat) : Nat → Nat → Bool
  | 0, _ => true
  | fuel + 1, offset =>
    if offset + 5 < data.length then
      decide (offset < data.length) && decide (offset + 4 < data.length) &&
      (let recordLen := readU16 data (offset + 3)
       let o := offset + 5
       if o + recordLen > data.length then true
       else decide (o < data.length) &&
         (if data.getD o 0 ≠ 0x02 then safe_parse_server_hello_go data fuel (o + recordLen)
          else
            let shOffset := o + 1 + 3 + 2 + 32
            if data.length ≤ shOffset then true
            else decide (shOffset < data.length) &&
              (let sessionIdLen := data.getD shOffset 0
               let s1 := shOffset + 1 + sessionIdLen
               if s1 + 2 > data.length then true
               else decide (s1 + 1 < data.length) &&
                 (let s2 := s1 + 3
                  if s2 + 2 > data.length then true
                  else decide (s2 + 1 < data.length) &&
                    (let extLen := readU16 data s2
                     let s3 := s2 + 2
                     let extEnd := s3 + extLen
                     if extEnd > data.length then true
                     else safe_sh_ext_loop data extEnd (extLen + 4) s3)))))
    else true

/-- Access checks of `parse_server_hello`. -/
def safe_parse_server_hello (data : List Nat) : Bool :=
  safe_parse_server_hello_go data data.length 0

/-- Access checks of the QNAME loop of `parse_dns_query_ext`: reads of
`data` and writes into the domain buffer of capacity `capacity + 1`
(`domainPos` mirrors the write position). -/
def safe_qname_loop (data : List Nat) (capacity : Nat) : Nat → Nat → Nat → Bool
  | 0, _, _ => true
  | fuel + 1, offset, domainPos =>
    if offset < data.length then
      decide (offset < data.length) &&
      (let labelLen := data.getD offset 0
       let o := offset + 1
       if labelLen = 0 then true
       else if labelLen &&& 0xC0 ≠ 0 then true
       else if o + labelLen > data.length then true
       else
         let pos1 := if 0 < domainPos then domainPos + 1 else domainPos
         if 0 < domainPos ∧ capacity ≤ domainPos then true
         else
           (if 0 < domainPos then decide (domainPos < capacity) else true) &&
           (if pos1 + labelLen > capacity then true
            else decide (o + labelLen ≤ data.length) && decide (pos1 + labelLen ≤ capacity) &&
              safe_qname_loop data capacity fuel (o + labelLen) (pos1 + labelLen)))
    else true

/-- Access checks of `parse_dns_query_ext`: header reads, the QNAME loop,
the final NUL write at `domainPos` (buffer size `capIn`), and the QTYPE
reads. -/
def safe_parse_dns_query_ext (data : List Nat) (capIn : Nat) : Bool :=
  if data.length < 12 ∨ capIn = 0 then true
  else decide (5 < data.length) &&
    (let qdcount := readU16 data 4
     if qdcount = 0 then true
     else
       let capacity := capIn - 1
       safe_qname_loop data capacity data.length 12 0 &&
       match qname_loop data capacity data.length 12 [] with
       | none => true
       | some (offset, dom) =>
         if dom.length = 0 then true
         else decide (dom.length < capIn) &&
           (if offset + 2 > data.length then true else decide (offset + 1 < data.length)))

/-- Access checks of the QNAME-skipping loop of `generate_dns_response`:
only `queryData[offset]` is read, under the loop condition. -/
def safe_skip_question_name (queryData : List Nat) : Nat → Nat → Bool
  | 0, _ => true
  | fuel + 1, offset =>
    if offset < queryData.length then
      decide (offset < queryData.length) &&
      (let labelLen := queryData.getD offset 0
       if labelLen = 0 then true
       else if labelLen &&& 0xC0 ≠ 0 then true
       else safe_skip_question_name queryData fuel (offset + 1 + labelLen))
    else true

/-- Access checks of `generate_dns_response`: the QNAME walk, the
`memcpy` of `questionEnd` bytes out of `queryData`, and the writes of
`responseLen` (or `questionEnd`) bytes into the output buffer of size
`outBufSize`. -/
def safe_generate_dns_response (queryData : List Nat) (fakeIP : Option (List Nat))
    (qtype : Nat) (outBufSize : Nat) : Bool :=
  if queryData.length < 12 then true
  else safe_skip_question_name queryData queryData.length 12 &&
    (let offset := skip_question_name queryData queryData.length 12 + 4
     if offset > queryData.length then true
     else decide (offset ≤ queryData.length) &&
       (let questionEnd := offset
        let rdLength :=
          match fakeIP with
          | none => 0
          | some _ => if qtype = 1 then 4 else if qtype = 28 then 16 else 0
        if 0 < rdLength then
          if outBufSize < questionEnd + 12 + rdLength then true
          else decide (questionEnd + 12 + rdLength ≤ outBufSize)
        else
          if outBufSize < questionEnd then true
          else decide (questionEnd ≤ outBufSize)))

/-- Access checks of the binary-search loop of `geoip_lookup`: each
iteration reads the 4 `startIP` bytes of entry `mid`. -/
def safe_geo_bsearch (db : List Nat) (ip : Nat) : Nat → Int → Int → Bool
  | 0, _, _ => true
  | fuel + 1, lo, hi =>
    if lo ≤ hi then
      let mid := lo + (hi - lo) / 2
      decide (8 + mid.toNat * 10 + 3 < db.length) &&
        (if entryStart db mid.toNat ≤ ip then safe_geo_bsearch db ip fuel (mid + 1) hi
         else safe_geo_bsearch db ip fuel lo (mid - 1))
    else true

/-- Access checks of `geoip_lookup`: magic and count reads, the binary
search, and the final 10-byte entry read at index `best`. -/
def safe_geoip_lookup (db : List Nat) (ipStr : List Char) : Bool :=
  if db.length < 8 then true
  else decide (7 < db.length) &&
    (if ¬(db.getD 0 0 = 71 ∧ db.getD 1 0 = 69 ∧ db.getD 2 0 = 79 ∧ db.getD 3 0 = 49) then true
     else
       let count := readU32 db 4
       if db.length < 8 + count * 10 then true
       else
         match inet_pton4 ipStr with
         | none => true
         | some ip =>
           safe_geo_bsearch db ip (count + 1) 0 ((count : Int) - 1) &&
             (let best := geo_bsearch db ip (count + 1) 0 ((count : Int) - 1) (-1)
              if best < 0 then true
              else decide (8 + best.toNat * 10 + 9 < db.length)))

-- MARK: Theorems

/-- C1 (counterexample): the suite-parameter resolver maps the
unrecognized identifier 0x1303 to the SHA-256 parameters (hash length
32, key length 16), not to the SHA-384 parameters the claim predicts for
every identifier other than 0x1301. -/
theorem get_suite_params_claim_counterexample :
    (get_suite_params 0x1303).2.1 = 32 ∧ (get_suite_params 0x1303).2.2 = 16 ∧
    ¬((get_suite_params 0x1303).2.1 = 48 ∧ (get_suite_params 0x1303).2.2 = 32) := by
  decide

/-- C1 (amended): identifier 0x1302 yields the SHA-384 parameters with
hash length 48 and key length 32, and every other identifier — including
0x1301 and unrecognized values — yields the SHA-256 parameters with hash
length 32 and key length 16. -/
theorem get_suite_params_amended (cs : Nat) :
    (cs = 0x1302 → get_suite_params cs = (.sha384, 48, 32)) ∧
    (cs ≠ 0x1302 → get_suite_params cs = (.sha256, 32, 16)) := by
  constructor
  · intro h
    simp [get_suite_params, TLS_AES_256_GCM_SHA384, h]
  · intro h
    simp [get_suite_params, TLS_AES_256_GCM_SHA384, h]

/-- Witness for `get_suite_params_amended` at the concrete suite 0x1301. -/
theorem get_suite_params_amended_witness :
    get_suite_params 0x1301 = (.sha256, 32, 16) :=
  (get_suite_params_amended 0x1301).2 (by decide)

/-- C4 (counterexample): prepending a single non-Handshake record (a
ChangeCipherSpec record) to a complete, valid ServerHello record makes
`parse_server_hello` fail, although the ServerHello alone parses to the
cipher suite 0x1301 and the 32-byte key share — the non-Handshake record
is not skipped. -/
theorem parse_server_hello_skip_counterexample :
    parse_server_hello (ccsRecordEx ++ serverHelloRecordEx) = none ∧
    parse_server_hello serverHelloRecordEx = some (List.replicate 32 7, 0x1301) := by
  constructor
  · decide
  · decide

/-- C4 (amended): whenever the first record's content type is not
Handshake (0x16) — in particular when any non-Handshake record precedes
the ServerHello — `parse_server_hello` stops at that record and fails;
only Handshake records whose first message byte is not ServerHello are
skipped. -/
theorem parse_server_hello_nonhandshake_first (data : List Nat)
    (h : data.getD 0 0 ≠ 0x16) : parse_server_hello data = none := by
  unfold parse_server_hello
  rcases hn : data.length with _ | m
  · rfl
  · simp only [parse_server_hello_go]
    split
    · simp [h]
    · rfl

/-- Witness for `parse_server_hello_nonhandshake_first` at the concrete
prefixed input. -/
theorem parse_server_hello_nonhandshake_first_witness :
    parse_server_hello (ccsRecordEx ++ serverHelloRecordEx) = none :=
  parse_server_hello_nonhandshake_first (ccsRecordEx ++ serverHelloRecordEx) (by decide)

/-- C5: on the 18-byte query whose QNAME is a lone 2-byte compression
pointer, `generate_dns_response` (NODATA path) emits a 17-byte response:
the label walk consumes only one byte of the pointer (although the code
comment says "Compressed pointer: 2 bytes total"), so the final QCLASS
byte is dropped and the response is not the 18 bytes the spec states. -/
theorem generate_dns_response_pointer_truncates :
    generate_dns_response dnsPointerQueryEx none 1 64 =
      some [0, 1, 0x85, 0x80, 0, 1, 0, 0, 0, 0, 0, 0, 0xC0, 0x0C, 0x00, 0x01, 0x00] ∧
    (generate_dns_response dnsPointerQueryEx none 1 64).map List.length ≠ some 18 := by
  constructor
  · decide
  · decide

/-- The backward scan finds nothing exactly when every scanned byte is 0. -/
theorem scan_back_eq_none_iff (data : List Nat) :
    ∀ i, scan_back data i = none ↔ ∀ j, j < i → data.getD j 0 = 0 := by
  intro i
  induction i with
  | zero => simp [scan_back]
  | succ m ih =>
    by_cases h : data.getD m 0 = 0
    · simp only [scan_back, h, if_true]
      rw [ih]
      constructor
      · intro hall j hj
        rcases Nat.lt_succ_iff_lt_or_eq.mp hj with hj' | hj'
        · exact hall j hj'
        · rw [hj']
          exact h
      · intro hall j hj
        exact hall j (Nat.lt_succ_of_lt hj)
    · simp only [scan_back, h, if_false]
      constructor
      · intro hc
        exact absurd hc (by simp)
      · intro hall
        exact absurd (hall m (Nat.lt_succ_self m)) h

/-- The backward scan returns the greatest index below `i` holding a
non-zero byte. -/
theorem scan_back_eq_some (data : List Nat) (k : Nat) :
    ∀ i, k < i → data.getD k 0 ≠ 0 →
      (∀ j, k < j → j < i → data.getD j 0 = 0) →
      scan_back data i = some k := by
  intro i
  induction i with
  | zero => intro hk; exact absurd hk (Nat.not_lt_zero k)
  | succ m ih =>
    intro hk hnz hzero
    by_cases h : data.getD m 0 = 0
    · have hkm : k ≠ m := by
        intro he
        rw [he] at hnz
        exact hnz h
      have hk' : k < m := Nat.lt_of_le_of_ne (Nat.lt_succ_iff.mp hk) hkm
      simp only [scan_back, h, if_true]
      exact ih hk' hnz (fun j hj hj' => hzero j hj (Nat.lt_succ_of_lt hj'))
    · have hkm : k = m := by
        by_contra hne
        have hk' : k < m := Nat.lt_of_le_of_ne (Nat.lt_succ_iff.mp hk) hne
        exact h (hzero m hk' (Nat.lt_succ_self m))
      simp only [scan_back, h, if_false]
      rw [hkm]

/-- Helper equivalence: the full `find_tls13_content_end` (fast path
included) computes the same answer as the plain backward scan. -/
theorem find_eq_scan_only (data : List Nat) :
    find_tls13_content_end data = scan_only data := by
  unfold find_tls13_content_end scan_only
  by_cases h0 : data.length = 0
  · simp [h0, scan_back]
  · rw [if_neg h0]
    by_cases hfast : 8 ≤ data.length ∧ data.getD (data.length - 1) 0 ≠ 0
    · have hscan : scan_back data data.length = some (data.length - 1) := by
        have hL : data.length = (data.length - 1) + 1 := by omega
        conv_lhs => rw [hL]
        simp only [scan_back]
        rw [if_neg hfast.2]
      rw [if_pos hfast, hscan]
    · rw [if_neg hfast]

/-- C7: the fast last-byte check of `find_tls13_content_end` is a pure
optimization — on every input the function returns exactly the index and
content-type byte of the plain backward scan for the last non-zero byte,
and fails (C `-1`) exactly when that scan finds none. -/
theorem find_tls13_content_end_refines_scan (data : List Nat) :
    find_tls13_content_end data = scan_only data :=
  find_eq_scan_only data

/-- C6: unwrapping `content || contentType || padding-zeros` yields the
content length and the content type for every non-zero content type and
every padding length, and unwrapping fails exactly on the empty or
all-zero buffer. -/
theorem tls13_unwrap_content_spec :
    (∀ (content : List Nat) (ct n : Nat), 1 ≤ ct → ct ≤ 255 →
      tls13_unwrap_content (content ++ ct :: List.replicate n 0) =
        some (content.length, ct)) ∧
    (∀ data : List Nat,
      tls13_unwrap_content data = none ↔ data = [] ∨ ∀ b ∈ data, b = 0) := by
  have getD_rep : ∀ (n m : Nat), (List.replicate n (0 : Nat)).getD m 0 = 0 := by
    intro n
    induction n with
    | zero => intro m; simp
    | succ p ih =>
      intro m
      cases m with
      | zero => simp [List.replicate_succ]
      | succ q =>
        rw [List.replicate_succ]
        exact ih q
  constructor
  · intro content ct n hct _
    set data := content ++ ct :: List.replicate n 0 with hdata
    have hlen : data.length = content.length + n + 1 := by
      simp [hdata]
      omega
    have hne : data.length ≠ 0 := by omega
    have hat : data.getD content.length 0 = ct := by
      rw [hdata, List.getD_append_right _ _ _ _ (Nat.le_refl content.length)]
      simp
    have hzero : ∀ j, content.length < j → j < data.length → data.getD j 0 = 0 := by
      intro j hj hj'
      rw [hdata, List.getD_append_right _ _ _ _ (Nat.le_of_lt hj)]
      have : j - content.length = (j - content.length - 1) + 1 := by omega
      rw [this]
      show (List.replicate n 0).getD (j - content.length - 1) 0 = 0
      exact getD_rep n (j - content.length - 1)
    have hscan : scan_back data data.length = some content.length :=
      scan_back_eq_some data content.length data.length (by omega)
        (by rw [hat]; omega) hzero
    unfold tls13_unwrap_content
    rw [if_neg hne, find_eq_scan_only]
    unfold scan_only
    rw [hscan]
    show some (content.length, data.getD content.length 0) = some (content.length, ct)
    rw [hat]
  · intro data
    by_cases h0 : data.length = 0
    · have : data = [] := List.length_eq_zero.mp h0
      simp [this, tls13_unwrap_content]
    · unfold tls13_unwrap_content
      rw [if_neg h0, find_eq_scan_only]
      unfold scan_only
      have hiff := scan_back_eq_none_iff data data.length
      constructor
      · intro hnone
        right
        intro b hb
        rcases List.mem_iff_getElem.mp hb with ⟨i, hi, hbi⟩
        have hz : ∀ j, j < data.length → data.getD j 0 = 0 := by
          apply hiff.mp
          rcases hs : scan_back data data.length with _ | k
          · rfl
          · rw [hs] at hnone
            exact absurd hnone (by simp)
        have := hz i hi
        rw [List.getD_eq_getElem data 0 hi] at this
        rw [← hbi]
        exact this
      · intro hall
        rcases hall with hall | hall
        · exact absurd (congrArg List.length hall) (by simpa using h0)
        · have hz : ∀ j, j < data.length → data.getD j 0 = 0 := by
            intro j hj
            rw [List.getD_eq_getElem data 0 hj]
            exact hall _ (List.getElem_mem hj)
          rw [hiff.mpr hz]

/-- Witness for `tls13_unwrap_content_spec` at a concrete buffer. -/
theorem tls13_unwrap_content_spec_witness :
    tls13_unwrap_content ([1, 2] ++ 23 :: List.replicate 3 0) =
      some (([1, 2] : List Nat).length, 23) :=
  tls13_unwrap_content_spec.1 [1, 2] 23 3 (by decide) (by decide)

/-- The QNAME loop never grows the domain beyond `capacity` bytes. -/
theorem qname_loop_capacity (data : List Nat) (capacity : Nat) :
    ∀ fuel offset dom offset2 dom2, dom.length ≤ capacity →
      qname_loop data capacity fuel offset dom = some (offset2, dom2) →
      dom2.length ≤ capacity := by
  intro fuel
  induction fuel with
  | zero =>
    intro offset dom offset2 dom2 hcap h
    simp only [qname_loop] at h
    injection h with h1
    injection h1 with _ h3
    rw [← h3]
    exact hcap
  | succ f ih =>
    intro offset dom offset2 dom2 hcap h
    simp only [qname_loop] at h
    by_cases hoff : offset < data.length
    · rw [if_pos hoff] at h
      by_cases hz : data.getD offset 0 = 0
      · simp only [hz, if_true] at h
        injection h with h1
        injection h1 with _ h3
        rw [← h3]
        exact hcap
      · simp only [hz, if_false] at h
        by_cases hptr : data.getD offset 0 &&& 0xC0 ≠ 0
        · rw [if_pos hptr] at h
          exact absurd h (by simp)
        · rw [if_neg hptr] at h
          by_cases hob : offset + 1 + data.getD offset 0 > data.length
          · rw [if_pos hob] at h
            exact absurd h (by simp)
          · rw [if_neg hob] at h
            by_cases hdot : 0 < dom.length ∧ capacity ≤ dom.length
            · rw [if_pos hdot] at h
              exact absurd h (by simp)
            · rw [if_neg hdot] at h
              by_cases hover :
                  (if 0 < dom.length then dom ++ [46] else dom).length +
                    data.getD offset 0 > capacity
              · rw [if_pos hover] at h
                exact absurd h (by simp)
              · rw [if_neg hover] at h
                refine ih _ _ _ _ ?_ h
                have htk :
                    ((data.drop (offset + 1)).take (data.getD offset 0)).length ≤
                      data.getD offset 0 := by
                  rw [List.length_take]
                  exact Nat.min_le_left _ _
                rw [List.length_append]
                omega
    · rw [if_neg hoff] at h
      injection h with h1
      injection h1 with _ h3
      rw [← h3]
      exact hcap

/-- C10: `parse_dns_query_ext` treats the incoming `*outDomainLen` as a
capacity: capacity 0 fails immediately, and on success the dot-joined
domain (whose length the function reports back, and which the C code
NUL-terminates in place) occupies at most `capacity - 1` bytes, leaving
room for the NUL terminator. -/
theorem parse_dns_query_ext_capacity :
    (∀ data : List Nat, parse_dns_query_ext data 0 = none) ∧
    (∀ (data : List Nat) (capIn : Nat) (dom : List Nat) (qtype : Nat),
      parse_dns_query_ext data capIn = some (dom, qtype) →
      1 ≤ capIn ∧ dom.length ≤ capIn - 1) := by
  constructor
  · intro data
    simp [parse_dns_query_ext]
  · intro data capIn dom qtype h
    simp only [parse_dns_query_ext] at h
    by_cases hg : data.length < 12 ∨ capIn = 0
    · rw [if_pos hg] at h
      exact absurd h (by simp)
    · rw [if_neg hg] at h
      have hcap : 1 ≤ capIn := by omega
      refine ⟨hcap, ?_⟩
      by_cases hq : readU16 data 4 = 0
      · rw [if_pos hq] at h
        exact absurd h (by simp)
      · rw [if_neg hq] at h
        rcases hloop : qname_loop data (capIn - 1) data.length 12 [] with _ | p
        · rw [hloop] at h
          exact absurd h (by simp)
        · rw [hloop] at h
          obtain ⟨offset, dom'⟩ := p
          have hd : dom'.length ≤ capIn - 1 :=
            qname_loop_capacity data (capIn - 1) data.length 12 [] offset dom'
              (by simp) hloop
          by_cases he : dom'.length = 0
          · simp only [he, if_true] at h
            exact absurd h (by simp)
          · simp only [he, if_false] at h
            by_cases ho : offset + 2 > data.length
            · rw [if_pos ho] at h
              exact absurd h (by simp)
            · rw [if_neg ho] at h
              injection h with h1
              injection h1 with h2 _
              rw [← h2]
              exact hd

/-- Witness for `parse_dns_query_ext_capacity` at a concrete query. -/
theorem parse_dns_query_ext_capacity_witness :
    1 ≤ 10 ∧ ([97] : List Nat).length ≤ 10 - 1 :=
  parse_dns_query_ext_capacity.2 dnsQueryEx 10 [97] 1 (by decide)

section ExpandLemmas

variable (hmacA : CCHmacAlgorithm → List Nat → List Nat → List Nat)
variable (sha2 sha3 : List Nat → List Nat)
variable (alg : CCHmacAlgorithm)

/-- Expanding zero bytes produces the empty list for any fuel. -/
theorem hkdf_expand_go_zero (h : Nat) (prk info : List Nat) :
    ∀ fuel t counter, hkdf_expand_go hmacA alg h prk info fuel 0 t counter = [] := by
  intro fuel t counter
  cases fuel with
  | zero => rfl
  | succ f => simp [hkdf_expand_go]

/-- Every spec-side block from index 1 on has the digest length. -/
theorem specT_length (h : Nat) (prk info : List Nat)
    (hf : ∀ m, (hmacA alg prk m).length = h) :
    ∀ i, (specT (hmacA alg prk) info (i + 1)).length = h := by
  intro i
  simp only [specT]
  exact hf _

/-- Length of a block concatenation starting at a positive index. -/
theorem blocksFrom_length (h : Nat) (prk info : List Nat)
    (hf : ∀ m, (hmacA alg prk m).length = h) :
    ∀ k c, (blocksFrom (hmacA alg prk) info (c + 1) k).length = k * h := by
  intro k
  induction k with
  | zero => intro c; simp [blocksFrom]
  | succ p ih =>
    intro c
    simp only [blocksFrom, List.length_append]
    rw [specT_length hmacA alg h prk info hf c, ih (c + 1)]
    ring

/-- The `hkdf_expand` loop computes a truncation of the spec-side block
concatenation, starting from any counter position. -/
theorem hkdf_expand_go_eq_blocksFrom (h : Nat) (prk info : List Nat)
    (hf : ∀ m, (hmacA alg prk m).length = h) (hpos : 0 < h) :
    ∀ fuel remaining c k, remaining ≤ fuel → remaining ≤ k * h →
      hkdf_expand_go hmacA alg h prk info fuel remaining
          (specT (hmacA alg prk) info c) (c + 1) =
        (blocksFrom (hmacA alg prk) info (c + 1) k).take remaining := by
  intro fuel
  induction fuel with
  | zero =>
    intro remaining c k hfuel _
    have : remaining = 0 := Nat.le_zero.mp hfuel
    rw [this]
    simp [hkdf_expand_go]
  | succ f ih =>
    intro remaining c k hfuel hk
    by_cases hr : remaining = 0
    · rw [hr]
      simp [hkdf_expand_go]
    · simp only [hkdf_expand_go]
      rw [if_neg hr]
      have hkpos : k ≠ 0 := by
        intro hk0
        rw [hk0] at hk
        simp at hk
        exact hr hk
      obtain ⟨p, rfl⟩ : ∃ p, k = p + 1 := ⟨k - 1, by omega⟩
      have htNew :
          hmacA alg prk (specT (hmacA alg prk) info c ++ info ++ [(c + 1) % 256]) =
            specT (hmacA alg prk) info (c + 1) := rfl
      rw [htNew]
      have hlenT : (specT (hmacA alg prk) info (c + 1)).length = h :=
        specT_length hmacA alg h prk info hf c
      have hblocks :
          blocksFrom (hmacA alg prk) info (c + 1) (p + 1) =
            specT (hmacA alg prk) info (c + 1) ++
              blocksFrom (hmacA alg prk) info (c + 2) p := rfl
      rw [hblocks]
      by_cases hcase : h ≤ remaining
      · have hmin : min h remaining = h := Nat.min_eq_left hcase
        rw [hmin]
        have htake : (specT (hmacA alg prk) info (c + 1)).take h =
            specT (hmacA alg prk) info (c + 1) := by
          rw [← hlenT]
          exact List.take_length _
        rw [htake]
        have hrec := ih (remaining - h) (c + 1) p (by omega)
          (by rw [Nat.succ_mul] at hk; omega)
        rw [hrec]
        rw [List.take_append_eq_append_take]
        rw [hlenT]
        have htakeT :
            List.take remaining (specT (hmacA alg prk) info (c + 1)) =
              specT (hmacA alg prk) info (c + 1) :=
          List.take_of_length_le (by rw [hlenT]; exact hcase)
        rw [htakeT]
      · have hmin : min h remaining = remaining :=
          Nat.min_eq_right (Nat.le_of_not_le hcase)
        rw [hmin]
        have hz : remaining - remaining = 0 := Nat.sub_self remaining
        rw [hz, hkdf_expand_go_zero, List.append_nil]
        rw [List.take_append_of_le_length (by rw [hlenT]; omega)]

end ExpandLemmas

/-- Appending one more block to a block concatenation. -/
theorem blocksFrom_snoc (f : List Nat → List Nat) (info : List Nat) :
    ∀ k c, blocksFrom f info c (k + 1) =
      blocksFrom f info c k ++ specT f info (c + k) := by
  intro k
  induction k with
  | zero => intro c; simp [blocksFrom]
  | succ p ih =>
    intro c
    show specT f info c ++ blocksFrom f info (c + 1) (p + 1) = _
    rw [ih (c + 1)]
    show specT f info c ++ (blocksFrom f info (c + 1) p ++ specT f info (c + 1 + p)) = _
    rw [← List.append_assoc]
    have : c + 1 + p = c + (p + 1) := by omega
    rw [this]
    rfl

/-- Blocks starting at counter 1 are exactly the spec-side prefix blocks. -/
theorem blocksFrom_one (f : List Nat → List Nat) (info : List Nat) :
    ∀ k, blocksFrom f info 1 k = specBlocks f info k := by
  intro k
  induction k with
  | zero => rfl
  | succ p ih =>
    rw [blocksFrom_snoc]
    rw [ih]
    show _ = specBlocks f info p ++ specT f info (p + 1)
    rw [Nat.add_comm 1 p]

/-- `hkdf_expand` is the truncation of the spec-side block concatenation,
for any sufficient block count. -/
theorem hkdf_expand_eq_blocks (hmacA : CCHmacAlgorithm → List Nat → List Nat → List Nat)
    (alg : CCHmacAlgorithm) (h : Nat) (prk info : List Nat)
    (hf : ∀ m, (hmacA alg prk m).length = h) (hpos : 0 < h) :
    ∀ L k, L ≤ k * h →
      hkdf_expand hmacA alg h prk info L =
        (specBlocks (hmacA alg prk) info k).take L := by
  intro L k hk
  unfold hkdf_expand
  have := hkdf_expand_go_eq_blocksFrom hmacA alg h prk info hf hpos L L 0 k
    (Nat.le_refl L) hk
  rw [show specT (hmacA alg prk) info 0 = [] from rfl] at this
  rw [this, blocksFrom_one]

/-- The ceiling block count covers the requested length. -/
theorem ceil_blocks_cover (L h : Nat) (hpos : 0 < h) :
    L ≤ (L + h - 1) / h * h := by
  have h1 := Nat.div_add_mod' (L + h - 1) h
  have h2 : (L + h - 1) % h < h := Nat.mod_lt _ hpos
  omega

/-- C8: for all `L' ≤ L` the `L'`-byte HKDF-Expand output is the first
`L'` bytes of the `L`-byte output (given an HMAC whose digest length is
the positive `hash_len` the expansion uses). -/
theorem hkdf_expand_truncation (hmacA : CCHmacAlgorithm → List Nat → List Nat → List Nat)
    (alg : CCHmacAlgorithm) (h : Nat) (prk info : List Nat) (L Lp : Nat)
    (hf : ∀ m, (hmacA alg prk m).length = h) (hpos : 0 < h) (hle : Lp ≤ L) :
    hkdf_expand hmacA alg h prk info Lp =
      (hkdf_expand hmacA alg h prk info L).take Lp := by
  have hK : L ≤ (L + h - 1) / h * h := ceil_blocks_cover L h hpos
  have hK' : Lp ≤ (L + h - 1) / h * h := Nat.le_trans hle hK
  rw [hkdf_expand_eq_blocks hmacA alg h prk info hf hpos L _ hK,
    hkdf_expand_eq_blocks hmacA alg h prk info hf hpos Lp _ hK',
    List.take_take, Nat.min_eq_left hle]

/-- Witness for `hkdf_expand_truncation` with the stand-in HMAC. -/
theorem hkdf_expand_truncation_witness :
    hkdf_expand dummyHmac .sha256 4 [1, 2] [3] 7 =
      (hkdf_expand dummyHmac .sha256 4 [1, 2] [3] 10).take 7 :=
  hkdf_expand_truncation dummyHmac .sha256 4 [1, 2] [3] 10 7
    (fun m => by simp [dummyHmac]) (by decide) (by decide)

/-- The source's `hkdf_expand_label` equals the spec-side one: the two
info encodings coincide and the expansions agree. -/
theorem hkdf_expand_label_eq_spec (hmacA : CCHmacAlgorithm → List Nat → List Nat → List Nat)
    (alg : CCHmacAlgorithm) (h : Nat) (secret label ctx : List Nat) (L : Nat)
    (hf : ∀ m, (hmacA alg secret m).length = h) (hpos : 0 < h) :
    hkdf_expand_label hmacA alg h secret label ctx L =
      specExpandLabel (hmacA alg secret) h label ctx L := by
  simp only [hkdf_expand_label, specExpandLabel, specExpand]
  have hinfo :
      [L / 256 % 256, L % 256, (6 + label.length) % 256] ++
          tls13Bytes ++ label ++ [ctx.length % 256] ++ ctx =
        [L / 256 % 256, L % 256] ++ [(tls13Bytes ++ label).length % 256] ++
          (tls13Bytes ++ label) ++ [ctx.length % 256] ++ ctx := by
    simp [tls13Bytes]
    omega
  rw [hinfo]
  exact hkdf_expand_eq_blocks hmacA alg h secret _ hf hpos L _ (ceil_blocks_cover L h hpos)

/-- Length of a spec-side Expand-Label output. -/
theorem specExpandLabel_length (hmacA : CCHmacAlgorithm → List Nat → List Nat → List Nat)
    (alg : CCHmacAlgorithm) (h : Nat) (secret label ctx : List Nat) (L : Nat)
    (hf : ∀ m, (hmacA alg secret m).length = h) (hpos : 0 < h) :
    (specExpandLabel (hmacA alg secret) h label ctx L).length = L := by
  simp only [specExpandLabel, specExpand]
  rw [List.length_take]
  rw [← blocksFrom_one]
  rw [blocksFrom_length hmacA alg h secret _ hf _ 0]
  exact Nat.min_eq_left (ceil_blocks_cover L h hpos)

/-- The source's `derive_secret` equals the spec-side
`Expand-Label(secret, label, Hash(messages), hash_len)` when the digest
has the suite's hash length. -/
theorem derive_secret_eq_spec (hmacA : CCHmacAlgorithm → List Nat → List Nat → List Nat)
    (sha2 sha3 : List Nat → List Nat) (cs : Nat) (alg : CCHmacAlgorithm) (h : Nat)
    (secret label messages : List Nat)
    (hf : ∀ m, (hmacA alg secret m).length = h) (hpos : 0 < h)
    (hdig : (sha_hash sha2 sha3 cs messages).length = h) :
    derive_secret hmacA sha2 sha3 cs alg h secret label messages =
      specExpandLabel (hmacA alg secret) h label (sha_hash sha2 sha3 cs messages) h := by
  simp only [derive_secret]
  rw [show (sha_hash sha2 sha3 cs messages).take h = sha_hash sha2 sha3 cs messages from by
    rw [← hdig]
    exact List.take_length _]
  exact hkdf_expand_label_eq_spec hmacA alg h secret label _ h hf hpos

/-- The handshake-key derivation agrees with the spec pipeline, assuming
the abstract primitives have the suite's digest lengths. -/
theorem derive_handshake_keys_eq_aux (hmacA : CCHmacAlgorithm → List Nat → List Nat → List Nat)
    (sha2 sha3 : List Nat → List Nat) (cs : Nat) (ss tr : List Nat)
    (hf : ∀ key m, (hmacA (get_suite_params cs).1 key m).length = (get_suite_params cs).2.1)
    (hdig : ∀ m, (sha_hash sha2 sha3 cs m).length = (get_suite_params cs).2.1)
    (hpos : 0 < (get_suite_params cs).2.1) :
    tls13_derive_handshake_keys hmacA sha2 sha3 cs ss tr =
      specDeriveHandshakeKeys hmacA sha2 sha3 cs ss tr := by
  simp only [tls13_derive_handshake_keys, specDeriveHandshakeKeys]
  set alg := (get_suite_params cs).1 with halg
  set h := (get_suite_params cs).2.1 with hh
  set kl := (get_suite_params cs).2.2 with hkl
  rw [show hkdf_extract hmacA alg h [] (List.replicate h 0) =
      hmacA alg (List.replicate h 0) (List.replicate h 0) from by
    simp [hkdf_extract]]
  set E := hmacA alg (List.replicate h 0) (List.replicate h 0) with hE
  rw [derive_secret_eq_spec hmacA sha2 sha3 cs alg h E labelDerived [] (hf E) hpos (hdig [])]
  set D := specExpandLabel (hmacA alg E) h labelDerived (sha_hash sha2 sha3 cs []) h with hD
  have hDlen : D.length = h := by
    rw [hD]
    exact specExpandLabel_length hmacA alg h E labelDerived _ h (hf E) hpos
  rw [show hkdf_extract hmacA alg h D ss = hmacA alg D ss from by
    simp only [hkdf_extract]
    rw [if_neg (by omega)]]
  set HS := hmacA alg D ss with hHS
  rw [derive_secret_eq_spec hmacA sha2 sha3 cs alg h HS labelCHsTraffic tr (hf HS) hpos (hdig tr)]
  rw [derive_secret_eq_spec hmacA sha2 sha3 cs alg h HS labelSHsTraffic tr (hf HS) hpos (hdig tr)]
  set CH := specExpandLabel (hmacA alg HS) h labelCHsTraffic (sha_hash sha2 sha3 cs tr) h with hCH
  set SH := specExpandLabel (hmacA alg HS) h labelSHsTraffic (sha_hash sha2 sha3 cs tr) h with hSH
  rw [hkdf_expand_label_eq_spec hmacA alg h CH labelKey [] kl (hf CH) hpos]
  rw [hkdf_expand_label_eq_spec hmacA alg h CH labelIv [] 12 (hf CH) hpos]
  rw [hkdf_expand_label_eq_spec hmacA alg h SH labelKey [] kl (hf SH) hpos]
  rw [hkdf_expand_label_eq_spec hmacA alg h SH labelIv [] 12 (hf SH) hpos]

/-- C2: for every cipher suite, shared secret and transcript,
`tls13_derive_handshake_keys` is exactly the claimed composition of
HKDF-Extract, Derive-Secret and HKDF-Expand-Label (with the claimed info
encoding), provided the abstract HMAC/SHA primitives produce digests of
their nominal lengths (32 bytes for SHA-256, 48 for SHA-384), as the
real primitives do. -/
theorem tls13_derive_handshake_keys_spec (hmacA : CCHmacAlgorithm → List Nat → List Nat → List Nat)
    (sha2 sha3 : List Nat → List Nat) (cs : Nat) (ss tr : List Nat)
    (h256 : ∀ key m, (hmacA .sha256 key m).length = 32)
    (h384 : ∀ key m, (hmacA .sha384 key m).length = 48)
    (hs2 : ∀ m, (sha2 m).length = 32)
    (hs3 : ∀ m, (sha3 m).length = 48) :
    tls13_derive_handshake_keys hmacA sha2 sha3 cs ss tr =
      specDeriveHandshakeKeys hmacA sha2 sha3 cs ss tr := by
  apply derive_handshake_keys_eq_aux
  · intro key m
    by_cases hcs : cs = 0x1302 <;>
      simp [get_suite_params, TLS_AES_256_GCM_SHA384, hcs, h256, h384]
  · intro m
    by_cases hcs : cs = 0x1302 <;>
      simp [get_suite_params, sha_hash, TLS_AES_256_GCM_SHA384, hcs, hs2, hs3]
  · by_cases hcs : cs = 0x1302 <;>
      simp [get_suite_params, TLS_AES_256_GCM_SHA384, hcs]

/-- Witness for `tls13_derive_handshake_keys_spec` with stand-in
primitives at suite 0x1301. -/
theorem tls13_derive_handshake_keys_spec_witness :
    tls13_derive_handshake_keys dummyHmacAlg dummySha2 dummySha3 0x1301
        (List.replicate 32 5) [1, 2, 3] =
      specDeriveHandshakeKeys dummyHmacAlg dummySha2 dummySha3 0x1301
        (List.replicate 32 5) [1, 2, 3] :=
  tls13_derive_handshake_keys_spec dummyHmacAlg dummySha2 dummySha3 0x1301
    (List.replicate 32 5) [1, 2, 3]
    (fun key m => by simp [dummyHmacAlg])
    (fun key m => by simp [dummyHmacAlg])
    (fun m => by simp [dummySha2])
    (fun m => by simp [dummySha3])

/-- The binary-search loop returns the greatest index whose `startIP` is
at most `ip` (or `-1` when there is none), given `startIP` monotone on
the first `n` entries and the loop invariants. -/
theorem geo_bsearch_correct (db : List Nat) (ip : Nat) (n : Nat)
    (hmono : ∀ i j : Nat, i ≤ j → j < n → entryStart db i ≤ entryStart db j) :
    ∀ (fuel : Nat) (lo hi best : Int),
      (hi + 1 - lo).toNat ≤ fuel →
      0 ≤ lo → lo ≤ (n : Int) → hi < (n : Int) → best = lo - 1 →
      (∀ k : Nat, (k : Int) < lo → entryStart db k ≤ ip) →
      (∀ k : Nat, hi < (k : Int) → k < n → ip < entryStart db k) →
      (geo_bsearch db ip fuel lo hi best = -1 ∧
        ∀ k : Nat, k < n → ip < entryStart db k) ∨
      (0 ≤ geo_bsearch db ip fuel lo hi best ∧
        geo_bsearch db ip fuel lo hi best < (n : Int) ∧
        entryStart db (geo_bsearch db ip fuel lo hi best).toNat ≤ ip ∧
        ∀ k : Nat, (geo_bsearch db ip fuel lo hi best).toNat < k → k < n →
          ip < entryStart db k) := by
  intro fuel
  induction fuel with
  | zero =>
    intro lo hi best hfuel hlo0 hlon hhin hbest hI2 hI3
    have hexit : hi + 1 ≤ lo := by omega
    have hred : geo_bsearch db ip 0 lo hi best = best := rfl
    rw [hred]
    by_cases hb : best < 0
    · left
      refine ⟨by omega, ?_⟩
      intro k hk
      exact hI3 k (by omega) hk
    · right
      refine ⟨by omega, by omega, ?_, ?_⟩
      · have hcast : ((best.toNat : Int)) = best := Int.toNat_of_nonneg (by omega)
        exact hI2 best.toNat (by omega)
      · intro k hk hkn
        refine hI3 k ?_ hkn
        have hcast : ((best.toNat : Int)) = best := Int.toNat_of_nonneg (by omega)
        omega
  | succ f ih =>
    intro lo hi best hfuel hlo0 hlon hhin hbest hI2 hI3
    simp only [geo_bsearch]
    by_cases hcond : lo ≤ hi
    · rw [if_pos hcond]
      have hq0 : 0 ≤ (hi - lo) / 2 := Int.ediv_nonneg (by omega) (by omega)
      have hqle : (hi - lo) / 2 ≤ hi - lo := Int.ediv_le_self 2 (by omega)
      set mid := lo + (hi - lo) / 2 with hmid
      have hmlo : lo ≤ mid := by omega
      have hmhi : mid ≤ hi := by omega
      have hmidn : mid.toNat < n := by omega
      by_cases hle : entryStart db mid.toNat ≤ ip
      · rw [if_pos hle]
        refine ih (mid + 1) hi mid (by omega) (by omega) (by omega) hhin (by omega)
          ?_ hI3
        intro k hk
        have hkm : k ≤ mid.toNat := by omega
        exact Nat.le_trans (hmono k mid.toNat hkm hmidn) hle
      · rw [if_neg hle]
        refine ih lo (mid - 1) best (by omega) hlo0 hlon (by omega) hbest hI2 ?_
        intro k hk hkn
        have hmk : mid.toNat ≤ k := by omega
        have := hmono mid.toNat k hmk hkn
        omega
    · rw [if_neg hcond]
      have hexit : hi + 1 ≤ lo := by omega
      by_cases hb : best < 0
      · left
        refine ⟨by omega, ?_⟩
        intro k hk
        exact hI3 k (by omega) hk
      · right
        refine ⟨by omega, by omega, ?_, ?_⟩
        · have hcast : ((best.toNat : Int)) = best := Int.toNat_of_nonneg (by omega)
          exact hI2 best.toNat (by omega)
        · intro k hk hkn
          refine hI3 k ?_ hkn
          have hcast : ((best.toNat : Int)) = best := Int.toNat_of_nonneg (by omega)
          omega

/-- C3: `geoip_lookup` returns 0 on a wrong magic, a short buffer or an
unparseable IPv4 string; on a well-formed database whose entries are
sorted with disjoint non-empty ranges, it returns the country code of
the entry containing the parsed address, and 0 when no entry contains
it. -/
theorem geoip_lookup_correct (db : List Nat) (ipStr : List Char) :
    (¬(db.getD 0 0 = 71 ∧ db.getD 1 0 = 69 ∧ db.getD 2 0 = 79 ∧ db.getD 3 0 = 49) →
      geoip_lookup db ipStr = 0) ∧
    (db.length < 8 + readU32 db 4 * 10 → geoip_lookup db ipStr = 0) ∧
    (inet_pton4 ipStr = none → geoip_lookup db ipStr = 0) ∧
    (∀ ip : Nat, inet_pton4 ipStr = some ip →
      (db.getD 0 0 = 71 ∧ db.getD 1 0 = 69 ∧ db.getD 2 0 = 79 ∧ db.getD 3 0 = 49) →
      8 + readU32 db 4 * 10 ≤ db.length →
      (∀ i, i < readU32 db 4 → entryStart db i ≤ entryEnd db i) →
      (∀ j, j < readU32 db 4 → ∀ i, i < j → entryEnd db i < entryStart db j) →
      (∀ i, i < readU32 db 4 → entryStart db i ≤ ip → ip ≤ entryEnd db i →
        geoip_lookup db ipStr = entryCode db i) ∧
      ((∀ i, i < readU32 db 4 → ¬(entryStart db i ≤ ip ∧ ip ≤ entryEnd db i)) →
        geoip_lookup db ipStr = 0)) := by
  refine ⟨?_, ?_, ?_, ?_⟩
  · intro hm
    unfold geoip_lookup
    by_cases h8 : db.length < 8
    · rw [if_pos h8]
    · rw [if_neg h8, if_pos hm]
  · intro hshort
    unfold geoip_lookup
    by_cases h8 : db.length < 8
    · rw [if_pos h8]
    · rw [if_neg h8]
      by_cases hm : db.getD 0 0 = 71 ∧ db.getD 1 0 = 69 ∧ db.getD 2 0 = 79 ∧ db.getD 3 0 = 49
      · rw [if_neg (by simpa using hm), if_pos hshort]
      · rw [if_pos hm]
  · intro hp
    unfold geoip_lookup
    by_cases h8 : db.length < 8
    · rw [if_pos h8]
    · rw [if_neg h8]
      by_cases hm : db.getD 0 0 = 71 ∧ db.getD 1 0 = 69 ∧ db.getD 2 0 = 79 ∧ db.getD 3 0 = 49
      · rw [if_neg (by simpa using hm)]
        by_cases hshort : db.length < 8 + readU32 db 4 * 10
        · rw [if_pos hshort]
        · rw [if_neg hshort, hp]
      · rw [if_pos hm]
  · intro ip hp hm hlen hwf hsorted
    have hval : geoip_lookup db ipStr =
        (if geo_bsearch db ip (readU32 db 4 + 1) 0 ((readU32 db 4 : Int) - 1) (-1) < 0 then 0
         else if entryEnd db (geo_bsearch db ip (readU32 db 4 + 1) 0
             ((readU32 db 4 : Int) - 1) (-1)).toNat < ip then 0
         else entryCode db (geo_bsearch db ip (readU32 db 4 + 1) 0
             ((readU32 db 4 : Int) - 1) (-1)).toNat) := by
      unfold geoip_lookup
      rw [if_neg (by omega), if_neg (by simpa using hm), if_neg (by omega), hp]
    have hmono : ∀ i j : Nat, i ≤ j → j < readU32 db 4 →
        entryStart db i ≤ entryStart db j := by
      intro i j hij hj
      rcases Nat.lt_or_ge i j with hlt | hge
      · exact Nat.le_trans (Nat.le_trans (hwf i (by omega)) (Nat.le_of_lt (hsorted j hj i hlt)))
          (Nat.le_refl _)
      · have : i = j := by omega
        rw [this]
    have hsearch := geo_bsearch_correct db ip (readU32 db 4) hmono
      (readU32 db 4 + 1) 0 ((readU32 db 4 : Int) - 1) (-1)
      (by omega) (by omega) (by omega) (by omega) (by omega)
      (by intro k hk; omega)
      (by intro k hk hkn; omega)
    set r := geo_bsearch db ip (readU32 db 4 + 1) 0 ((readU32 db 4 : Int) - 1) (-1) with hr
    constructor
    · intro i hi hsi hei
      rcases hsearch with ⟨hneg, hall⟩ | ⟨h0, hltn, hsle, hgt⟩
      · exact absurd hsi (by have := hall i hi; omega)
      · have hirn : i = r.toNat := by
          rcases Nat.lt_trichotomy i r.toNat with hlt | heq | hgt'
          · have h1 := hsorted r.toNat (by omega) i hlt
            omega
          · exact heq
          · have := hgt i hgt' hi
            omega
        rw [hval, if_neg (by omega), if_neg (by rw [← hirn]; omega)]
        rw [hirn]
    · intro hnone
      rcases hsearch with ⟨hneg, hall⟩ | ⟨h0, hltn, hsle, hgt⟩
      · rw [hval, if_pos (by omega)]
      · have hrn : r.toNat < readU32 db 4 := by omega
        have := hnone r.toNat hrn
        have hend : entryEnd db r.toNat < ip := by
          by_contra hc
          exact this ⟨hsle, by omega⟩
        rw [hval, if_neg (by omega), if_pos hend]

/-- Witness for `geoip_lookup_correct`: looking up 0.0.0.11 in the
spec's three-entry table returns the "BB" code 0x4242. -/
theorem geoip_lookup_correct_witness :
    geoip_lookup geoDbEx geoIpStrEx = 0x4242 := by
  have h := (geoip_lookup_correct geoDbEx geoIpStrEx).2.2.2 11 (by decide)
    (by decide) (by decide)
    (by decide) (by decide)
  exact (h.1 1 (by decide) (by decide) (by decide)).trans (by decide)

/-- Every access of `parse_tls_header` is in bounds. -/
theorem safe_parse_tls_header_ok (buffer : List Nat) :
    safe_parse_tls_header buffer = true := by
  unfold safe_parse_tls_header
  split
  · rfl
  · rename_i h
    simp only [Bool.and_eq_true, decide_eq_true_eq]
    omega

/-- Every access of the extension loop is in bounds once the extension
area lies inside the buffer. -/
theorem safe_sh_ext_loop_ok (data : List Nat) (extEnd : Nat)
    (hext : extEnd ≤ data.length) :
    ∀ fuel shOffset, safe_sh_ext_loop data extEnd fuel shOffset = true := by
  intro fuel
  induction fuel with
  | zero => intro shOffset; rfl
  | succ f ih =>
    intro shOffset
    simp only [safe_sh_ext_loop]
    split
    · rename_i hin
      simp only [Bool.and_eq_true, decide_eq_true_eq]
      refine ⟨by omega, ?_⟩
      split
      · split
        · rfl
        · rename_i hko
          simp only [Bool.and_eq_true, decide_eq_true_eq]
          refine ⟨by omega, ?_⟩
          split
          · split
            · rfl
            · rename_i h32
              simp only [decide_eq_true_eq]
              omega
          · exact ih _
      · exact ih _
    · rfl

/-- Every access of the ServerHello record loop is in bounds. -/
theorem safe_parse_server_hello_go_ok (data : List Nat) :
    ∀ fuel offset, safe_parse_server_hello_go data fuel offset = true := by
  intro fuel
  induction fuel with
  | zero => intro offset; rfl
  | succ f ih =>
    intro offset
    simp only [safe_parse_server_hello_go]
    split
    · rename_i hin
      simp only [Bool.and_eq_true, decide_eq_true_eq]
      refine ⟨⟨by omega, by omega⟩, ?_⟩
      split
      · rfl
      · rename_i hrec
        simp only [Bool.and_eq_true, decide_eq_true_eq]
        refine ⟨by omega, ?_⟩
        split
        · exact ih _
        · split
          · rfl
          · rename_i hsh
            simp only [Bool.and_eq_true, decide_eq_true_eq]
            refine ⟨by omega, ?_⟩
            split
            · rfl
            · rename_i hs1
              simp only [Bool.and_eq_true, decide_eq_true_eq]
              refine ⟨by omega, ?_⟩
              split
              · rfl
              · rename_i hs2
                simp only [Bool.and_eq_true, decide_eq_true_eq]
                refine ⟨by omega, ?_⟩
                split
                · rfl
                · rename_i hee
                  exact safe_sh_ext_loop_ok data _ (by omega) _ _
    · rfl

/-- Every access of `parse_server_hello` is in bounds. -/
theorem safe_parse_server_hello_ok (data : List Nat) :
    safe_parse_server_hello data = true :=
  safe_parse_server_hello_go_ok data data.length 0

/-- Every access of the QNAME loop is in bounds. -/
theorem safe_qname_loop_ok (data : List Nat) (capacity : Nat) :
    ∀ fuel offset domainPos, safe_qname_loop data capacity fuel offset domainPos = true := by
  intro fuel
  induction fuel with
  | zero => intro offset domainPos; rfl
  | succ f ih =>
    intro offset domainPos
    simp only [safe_qname_loop]
    split
    · rename_i hin
      simp only [Bool.and_eq_true, decide_eq_true_eq]
      refine ⟨hin, ?_⟩
      split
      · rfl
      · split
        · rfl
        · split
          · rfl
          · split
            · rfl
            · rename_i hnl hnp hnb hnc
              by_cases hdp : 0 < domainPos
              · simp only [if_pos hdp, Bool.and_eq_true, decide_eq_true_eq]
                refine ⟨by omega, ?_⟩
                split
                · rfl
                · rename_i hfit
                  simp only [Bool.and_eq_true, decide_eq_true_eq]
                  exact ⟨⟨by omega, by omega⟩, ih _ _⟩
              · simp only [if_neg hdp, Bool.true_and]
                split
                · rfl
                · rename_i hfit
                  simp only [Bool.and_eq_true, decide_eq_true_eq]
                  exact ⟨⟨by omega, by omega⟩, ih _ _⟩
    · rfl

/-- Every access of `parse_dns_query_ext` is in bounds: buffer reads and
domain-buffer writes, including the final NUL terminator. -/
theorem safe_parse_dns_query_ext_ok (data : List Nat) (capIn : Nat) :
    safe_parse_dns_query_ext data capIn = true := by
  unfold safe_parse_dns_query_ext
  split
  · rfl
  · rename_i hg
    simp only [Bool.and_eq_true, decide_eq_true_eq]
    refine ⟨by omega, ?_⟩
    split
    · rfl
    · rename_i hq
      simp only [Bool.and_eq_true]
      refine ⟨safe_qname_loop_ok data (capIn - 1) data.length 12 0, ?_⟩
      rcases hloop : qname_loop data (capIn - 1) data.length 12 [] with _ | p
      · rfl
      · obtain ⟨offset, dom⟩ := p
        have hd : dom.length ≤ capIn - 1 :=
          qname_loop_capacity data (capIn - 1) data.length 12 [] offset dom
            (by simp) hloop
        dsimp only
        split
        · rfl
        · rename_i hdz
          simp only [Bool.and_eq_true, decide_eq_true_eq]
          refine ⟨by omega, ?_⟩
          split
          · rfl
          · rename_i hoq
            simp only [decide_eq_true_eq]
            omega

/-- Every access of the QNAME-skipping loop is in bounds. -/
theorem safe_skip_question_name_ok (queryData : List Nat) :
    ∀ fuel offset, safe_skip_question_name queryData fuel offset = true := by
  intro fuel
  induction fuel with
  | zero => intro offset; rfl
  | succ f ih =>
    intro offset
    simp only [safe_skip_question_name]
    split
    · rename_i hin
      simp only [Bool.and_eq_true, decide_eq_true_eq]
      refine ⟨hin, ?_⟩
      split
      · rfl
      · split
        · rfl
        · exact ih _
    · rfl

/-- Every access of `generate_dns_response` is in bounds. -/
theorem safe_generate_dns_response_ok (queryData : List Nat)
    (fakeIP : Option (List Nat)) (qtype outBufSize : Nat) :
    safe_generate_dns_response queryData fakeIP qtype outBufSize = true := by
  unfold safe_generate_dns_response
  split
  · rfl
  · rename_i hlen
    simp only [Bool.and_eq_true]
    refine ⟨safe_skip_question_name_ok queryData queryData.length 12, ?_⟩
    split
    · rfl
    · rename_i hend
      simp only [Bool.and_eq_true, decide_eq_true_eq]
      refine ⟨by omega, ?_⟩
      rcases fakeIP with _ | ipb <;>
        · dsimp only
          repeat' split <;> try rfl
          all_goals
            simp only [decide_eq_true_eq]
            omega

/-- Every access of the binary-search loop is in bounds while the search
interval stays below the entry count and the buffer holds that many
entries. -/
theorem safe_geo_bsearch_ok (db : List Nat) (ip : Nat) (n : Nat)
    (hlen : 8 + n * 10 ≤ db.length) :
    ∀ fuel (lo hi : Int), 0 ≤ lo → hi < (n : Int) →
      safe_geo_bsearch db ip fuel lo hi = true := by
  intro fuel
  induction fuel with
  | zero => intro lo hi _ _; rfl
  | succ f ih =>
    intro lo hi hlo hhi
    simp only [safe_geo_bsearch]
    split
    · rename_i hcond
      have hq0 : 0 ≤ (hi - lo) / 2 := Int.ediv_nonneg (by omega) (by omega)
      have hqle : (hi - lo) / 2 ≤ hi - lo := Int.ediv_le_self 2 (by omega)
      simp only [Bool.and_eq_true, decide_eq_true_eq]
      constructor
      · have : (lo + (hi - lo) / 2).toNat < n := by omega
        omega
      · split
        · exact ih _ _ (by omega) hhi
        · exact ih _ _ (by omega) (by omega)
    · rfl

/-- The binary search never returns an index at or beyond the entry
count (given in-range `hi` and `best`). -/
theorem geo_bsearch_lt (db : List Nat) (ip : Nat) (n : Nat) :
    ∀ fuel (lo hi best : Int), hi < (n : Int) → best < (n : Int) →
      geo_bsearch db ip fuel lo hi best < (n : Int) := by
  intro fuel
  induction fuel with
  | zero => intro lo hi best _ hb; exact hb
  | succ f ih =>
    intro lo hi best hhi hb
    simp only [geo_bsearch]
    split
    · rename_i hcond
      have hqle : (hi - lo) / 2 ≤ hi - lo := Int.ediv_le_self 2 (by omega)
      split
      · exact ih _ _ _ hhi (by omega)
      · exact ih _ _ _ (by omega) hb
    · exact hb

/-- Every access of `geoip_lookup` is in bounds. -/
theorem safe_geoip_lookup_ok (db : List Nat) (ipStr : List Char) :
    safe_geoip_lookup db ipStr = true := by
  unfold safe_geoip_lookup
  split
  · rfl
  · rename_i h8
    simp only [Bool.and_eq_true, decide_eq_true_eq]
    refine ⟨by omega, ?_⟩
    split
    · rfl
    · rename_i hm
      split
      · rfl
      · rename_i hshort
        rcases hp : inet_pton4 ipStr with _ | ip
        · rfl
        · simp only [Bool.and_eq_true]
          refine ⟨safe_geo_bsearch_ok db ip (readU32 db 4) (by omega)
            (readU32 db 4 + 1) 0 ((readU32 db 4 : Int) - 1) (by omega) (by omega), ?_⟩
          split
          · rfl
          · rename_i hbest
            simp only [decide_eq_true_eq]
            have hlt := geo_bsearch_lt db ip (readU32 db 4)
              (readU32 db 4 + 1) 0 ((readU32 db 4 : Int) - 1) (-1)
              (by omega) (by omega)
            omega

/-- C9: in the shallow embedding every index the parsing functions
dereference lies inside the supplied buffers — the instrumented access
checkers for `parse_tls_header`, `parse_server_hello`,
`parse_dns_query_ext`, `generate_dns_response` and `geoip_lookup` hold
on all inputs, so a buffer too short for a declared internal length is
always answered by a reported failure, never an out-of-bounds access. -/
theorem parsing_never_out_of_bounds :
    (∀ buffer : List Nat, safe_parse_tls_header buffer = true) ∧
    (∀ data : List Nat, safe_parse_server_hello data = true) ∧
    (∀ (data : List Nat) (capIn : Nat), safe_parse_dns_query_ext data capIn = true) ∧
    (∀ (queryData : List Nat) (fakeIP : Option (List Nat)) (qtype outBufSize : Nat),
      safe_generate_dns_response queryData fakeIP qtype outBufSize = true) ∧
    (∀ (db : List Nat) (ipStr : List Char), safe_geoip_lookup db ipStr = true) :=
  ⟨safe_parse_tls_header_ok, safe_parse_server_hello_ok,
   safe_parse_dns_query_ext_ok, safe_generate_dns_response_ok,
   safe_geoip_lookup_ok⟩

end Anywhere
